import Mathlib

/-!
Verification development for the tenv core: a shallow embedding of the
release catalog client (package github) and of the version manager
(package versionmanager), with theorems checking the specification's
claims against the embedded code.

Conventions of the embedding:
* Go strings are Lean `String`s; the single place where the code indexes
  a raw byte (`version[0] == 'v'`) is embedded through the character
  list `String.data` ('v' is ASCII, so first byte and first character
  agree there).
* Dynamic JSON values (`any` after `json.Unmarshal`) are an explicit
  `JSON` inductive; a failed Go type assertion is the `none`/wildcard
  branch of a lookup.
* Effectful calls (HTTP transport, filesystem, retriever, external
  parsers) are oracle parameters holding the outcome the environment
  would produce; effects the claims observe (directory creation,
  retriever invocation counts, displayed lines, files written) are
  returned explicitly in result records.
* The paginated loops of the client are driven by the list of successive
  page responses; exhausting that list models a run longer than the
  supplied environment and is reported as `none` (no real execution
  reaches it when the environment supplies enough pages).
-/

set_option maxRecDepth 40000

/-- Errors surfaced by the embedded code: the named sentinel errors of
package versionmanager and apierrors, plus transparent transport and
JSON-decoding failures. -/
inductive GoErr where
  | emptyVersion
  | noCompatible
  | noCompatibleLocally
  | badResponse
  | assetNotFound
  | transport (msg : String)
  | jsonError
  | other (msg : String)
deriving DecidableEq, Repr

/-- Dynamic JSON values, the `any` of the Go client after `json.Unmarshal`. -/
inductive JSON where
  | null
  | bool (b : Bool)
  | num (n : Int)
  | str (s : String)
  | arr (elems : List JSON)
  | obj (fields : List (String × JSON))

/-- Go `object, _ := value.(map[string]any)` followed by `object[key]`:
field lookup that yields nothing when the value is not an object or the
key is absent. -/
def JSON.getField : JSON → String → Option JSON
  | .obj fields, key => fields.lookup key
  | _, _ => none

/-- Go `object[key].(string)`: the field when present and a string. -/
def JSON.getStr (value : JSON) (key : String) : Option String :=
  match value.getField key with
  | some (.str s) => some s
  | _ => none

/-- The body of `if version[0] == 'v' { version = version[1:] }`. -/
def dropLeadingV (s : String) : String :=
  match s.data with
  | 'v' :: rest => String.mk rest
  | _ => s

/-- Embeds `extractVersion` (github.go): read `tag_name`, fail when it
is empty or missing, drop a leading 'v'. -/
def extractVersion (value : JSON) : Option String :=
  let version := (value.getStr "tag_name").getD ""
  if version = "" then none
  else some (dropLeadingV version)

/-- One HTTP response: status code and body (`none` body = the bytes do
not decode as JSON). -/
structure HttpResponse where
  status : Nat
  body : Option JSON

/-- Embeds `apiGetRequest` (github.go): a transport error surfaces, the
body is decoded as JSON; note that the source never reads
`response.StatusCode`, so neither does the embedding. -/
def apiGetRequest (response : Except String HttpResponse) : Except GoErr JSON :=
  match response with
  | .error e => .error (.transport e)
  | .ok r =>
    match r.body with
    | none => .error .jsonError
    | some value => .ok value

/-- Embeds `LatestRelease` (github.go): one request on the `latest`
URL, then `extractVersion`, `ErrReturn` (bad response) on failure. -/
def LatestRelease (response : Except String HttpResponse) : Except GoErr String :=
  match apiGetRequest response with
  | .error e => .error e
  | .ok value =>
    match extractVersion value with
    | some version => .ok version
    | none => .error .badResponse

/-- `extractVersion` mapped over the objects of one release page,
failing at the first object without a usable `tag_name`. -/
def extractVersions : List JSON → Option (List String)
  | [] => some []
  | value :: rest =>
    match extractVersion value with
    | some version => (extractVersions rest).map (version :: ·)
    | none => none

/-- Embeds `extractReleases` (github.go): not an array is a bad
response; an empty array ends the pagination (`true`); otherwise every
object must yield a version and paging goes on (`false`, the Go
`errContinue`). -/
def extractReleases (releases : List String) (value : JSON) : Except GoErr (List String × Bool) :=
  match value with
  | .arr [] => .ok (releases, true)
  | .arr values =>
    match extractVersions values with
    | some versions => .ok (releases ++ versions, false)
    | none => .error .badResponse
  | _ => .error .badResponse

/-- The paging loop of `ListReleases`, driven by the successive page
responses. -/
def listReleasesLoop (releases : List String) : List (Except String HttpResponse) → Except GoErr (Option (List String))
  | [] => .ok none
  | response :: rest =>
    match apiGetRequest response with
    | .error e => .error e
    | .ok value =>
      match extractReleases releases value with
      | .error e => .error e
      | .ok (acc, true) => .ok (some acc)
      | .ok (acc, false) => listReleasesLoop acc rest

/-- Embeds `ListReleases` (github.go). -/
def ListReleases (pages : List (Except String HttpResponse)) : Except GoErr (Option (List String)) :=
  listReleasesLoop [] pages

/-- Go `assets[assetName] = downloadURL` on a `map[string]string`:
overwrite when the key is present, append otherwise. -/
def insertAsset (assets : List (String × String)) (name url : String) : List (String × String) :=
  if (assets.lookup name).isSome then
    assets.map (fun p => if p.1 = name then (name, url) else p)
  else assets ++ [(name, url)]

/-- Outcome of scanning one asset page: all searched names recorded
(`done`), keep paging (`more`, the Go `errContinue`), or failure. -/
inductive AssetScan where
  | done (assets : List (String × String))
  | more (assets : List (String × String))
  | fail (e : GoErr)
deriving DecidableEq, Repr

instance {ε α : Type} [DecidableEq ε] [DecidableEq α] : DecidableEq (Except ε α) := fun a b =>
  match a, b with
  | .ok x, .ok y =>
    if h : x = y then isTrue (by rw [h]) else isFalse (by intro hc; cases hc; exact h rfl)
  | .error x, .error y =>
    if h : x = y then isTrue (by rw [h]) else isFalse (by intro hc; cases hc; exact h rfl)
  | .ok _, .error _ => isFalse (by intro hc; cases hc)
  | .error _, .ok _ => isFalse (by intro hc; cases hc)

/-- The `for _, value := range values` body of `extractAssets`
(github.go): each object must carry a string `name`; a searched one
must also carry `browser_download_url` and is recorded; recording the
`waited`-th distinct name succeeds immediately. -/
def extractAssetsLoop (searched : List String) (waited : Nat) (assets : List (String × String)) : List JSON → AssetScan
  | [] => .more assets
  | value :: rest =>
    match value.getStr "name" with
    | none => .fail .badResponse
    | some assetName =>
      if searched.contains assetName then
        match value.getStr "browser_download_url" with
        | none => .fail .badResponse
        | some url =>
          let assets2 := insertAsset assets assetName url
          if assets2.length = waited then .done assets2
          else extractAssetsLoop searched waited assets2 rest
      else extractAssetsLoop searched waited assets rest

/-- Embeds `extractAssets` (github.go): not an array is a bad response,
an empty page is `ErrAsset` (asset not found), otherwise the scan of
the page's objects. -/
def extractAssets (searched : List String) (waited : Nat) (assets : List (String × String)) (value : JSON) : AssetScan :=
  match value with
  | .arr [] => .fail .assetNotFound
  | .arr values => extractAssetsLoop searched waited assets values
  | _ => .fail .badResponse

/-- The asset paging loop of `DownloadAssetURL`, driven by the
successive asset page responses. -/
def downloadAssetLoop (searched : List String) (waited : Nat) (assets : List (String × String)) : List (Except String HttpResponse) → Except GoErr (Option (List (String × String)))
  | [] => .ok none
  | response :: rest =>
    match apiGetRequest response with
    | .error e => .error e
    | .ok value =>
      match extractAssets searched waited assets value with
      | .done found => .ok (some found)
      | .fail e => .error e
      | .more acc => downloadAssetLoop searched waited acc rest

/-- Embeds `DownloadAssetURL` (github.go): fetch the tag's release
object, require its `assets_url`, then page through the assets; the
searched set is the name list (membership ignores duplicates exactly as
the Go `map[string]struct\x7b\x7d` does) while `waited` counts the given
names with duplicates, as in the source. -/
def DownloadAssetURL (searchedAssetNames : List String) (tagResponse : Except String HttpResponse) (assetPages : List (Except String HttpResponse)) : Except GoErr (Option (List (String × String))) :=
  match apiGetRequest tagResponse with
  | .error e => .error e
  | .ok value =>
    match value.getStr "assets_url" with
    | none => .error .badResponse
    | some _ => downloadAssetLoop searchedAssetNames searchedAssetNames.length [] assetPages

/-- Whether every segment of a version tail is zero. -/
def allZero : List Nat → Bool
  | [] => true
  | x :: xs => x == 0 && allZero xs

/-- Modelled from the spec: one comparison step of the external semver
comparator (`semantic.CmpVersion`), on numeric segment lists; missing
trailing segments count as zero, as the semver library does. -/
def cmpSeg : List Nat → List Nat → Int
  | [], ys => if allZero ys then 0 else -1
  | x :: xs, [] => if 0 < x then 1 else cmpSeg xs []
  | x :: xs, y :: ys => if x < y then -1 else if y < x then 1 else cmpSeg xs ys

/-- The dot-separated segments of a character list. -/
def splitSegs : List Char → List (List Char)
  | [] => [[]]
  | c :: rest =>
    match splitSegs rest with
    | [] => []
    | seg :: segs => if c = '.' then [] :: seg :: segs else (c :: seg) :: segs

/-- A decimal digit segment as a number. -/
def segToNat (seg : List Char) : Nat :=
  seg.foldl (fun n c => n * 10 + (c.toNat - 48)) 0

/-- Modelled from the spec: the numeric segments of a version string. -/
def verSegs (s : String) : List Nat :=
  (splitSegs s.data).map segToNat

/-- Modelled from the spec: the external semver comparator
(`semantic.CmpVersion`), negative when the first version is lower. -/
def cmpVersion (a b : String) : Int :=
  cmpSeg (verSegs a) (verSegs b)

/-- Modelled from the spec: `reversecmp.Reverser`, the comparator
optionally flipped when newest-first order is requested. -/
def reverser (cmp : String → String → Int) (reverseOrder : Bool) : String → String → Int :=
  match reverseOrder with
  | true => fun a b => cmp b a
  | false => cmp

/-- Insertion of one element into a list sorted for `cmp`. -/
def orderedInsertCmp {α : Type} (cmp : α → α → Int) (a : α) : List α → List α
  | [] => [a]
  | b :: l => if cmp a b ≤ 0 then a :: b :: l else b :: orderedInsertCmp cmp a l

/-- Embeds `slices.SortFunc`: a comparison sort for the comparator (the
Go sort is unstable and unspecified on ties; any comparison sort is an
admissible model, and the theorems that depend on tie behaviour carry a
no-ties hypothesis). -/
def sortCmp {α : Type} (cmp : α → α → Int) : List α → List α
  | [] => []
  | a :: l => orderedInsertCmp cmp a (sortCmp cmp l)

/-- One entry of the install directory, as seen by `os.ReadDir` and
`os.Stat`: a name and whether it is a sub-directory. -/
structure Entry where
  name : String
  isDir : Bool
deriving DecidableEq, Repr

/-- Modelled from the spec: the external concrete-version parser
(`version.NewVersion` followed by `String()`), which accepts a dotted
numeric version with an optional leading 'v' and canonicalizes by
stripping that 'v'. -/
def parseVersion (s : String) : Option String :=
  let t := dropLeadingV s
  if t.data.isEmpty then none
  else if (splitSegs t.data).all (fun seg => !seg.isEmpty && seg.all Char.isDigit) then some t
  else none

/-- The install-presence test of `checkVersionInstallation`
(versionmanager.go): `os.Stat` on `<install_path>/<version>`, true when
any entry of that name exists, directory or not (the filesystem oracle
is the entry list; `MkdirAll` of the install path and stat I/O faults
are assumed healthy). -/
def checkVersionInstallation (fs : List Entry) (version : String) : Bool :=
  fs.any (fun e => e.name == version)

/-- Embeds `innerListLocal` (versionmanager.go): the names of the
directory entries that are sub-directories, sorted by the (optionally
reversed) semver comparator. -/
def innerListLocal (fs : List Entry) (reverseOrder : Bool) : List String :=
  sortCmp (reverser cmpVersion reverseOrder) ((fs.filter (fun e => e.isDir)).map (fun e => e.name))

/-- Embeds `ListRemote` (versionmanager.go): the retriever's release
list (its outcome is the oracle argument), sorted like the local one. -/
def ListRemote (remote : Except GoErr (List String)) (reverseOrder : Bool) : Except GoErr (List String) :=
  match remote with
  | .error e => .error e
  | .ok versions => .ok (sortCmp (reverser cmpVersion reverseOrder) versions)

/-- The display line of `alreadyInstalledMsg` (versionmanager.go). -/
def alreadyInstalledMsg (folder version : String) : String :=
  folder ++ " " ++ version ++ " already installed"

/-- Go `strings.ToLower` on ASCII folder names. -/
def toLowerStr (s : String) : String :=
  String.mk (s.data.map Char.toLower)

/-- The display line of `autoInstallDisabledMsg` (versionmanager.go),
which is emitted together with the returned `ErrNoCompatibleLocally`. -/
def autoInstallDisabledMsg (folder version : String) : String :=
  "Auto-install is disabled. To install " ++ folder ++ " version " ++ version ++
    ", you can set environment variable TENV_AUTO_INSTALL=true, or install it via any of the following command: \x27tenv " ++
    toLowerStr folder ++ " install\x27, \x27tenv " ++ toLowerStr folder ++ " install " ++ version ++ "\x27"

/-- Result of `installSpecificVersion`: the returned error if any, the
install directory afterwards, how many times `retriever.InstallRelease`
was invoked, and the lines displayed. -/
structure InstallResult where
  err : Option GoErr
  fs : List Entry
  installCalls : Nat
  displayed : List String
deriving DecidableEq, Repr

/-- Embeds `installSpecificVersion` (versionmanager.go): reject the
empty version; first presence check without the lock; then under the
lock a second identical check (sequentially no other process ran, so it
sees the same state); then `retriever.InstallRelease` whose outcome is
the oracle `retr` and which creates the version directory on success. -/
def installSpecificVersion (folder : String) (retr : Except GoErr Unit) (fs : List Entry) (version : String) : InstallResult :=
  if version = "" then ⟨some .emptyVersion, fs, 0, []⟩
  else if checkVersionInstallation fs version then
    ⟨none, fs, 0, [alreadyInstalledMsg folder version]⟩
  else if checkVersionInstallation fs version then
    ⟨none, fs, 0, [alreadyInstalledMsg folder version]⟩
  else
    match retr with
    | .ok _ =>
      ⟨none, fs ++ [⟨version, true⟩], 1,
        ["Installing " ++ folder ++ " " ++ version,
         "Installation of " ++ folder ++ " " ++ version ++ " successful"]⟩
    | .error e => ⟨some e, fs, 1, ["Installing " ++ folder ++ " " ++ version]⟩

/-- The `PredicateInfo` produced by the external constraint parser. -/
structure PredInfo where
  Predicate : String → Bool
  ReverseOrder : Bool

/-- Result of `Evaluate` and friends: the returned version string (""
on the error-only paths), the returned error if any, the install
directory afterwards, the `InstallRelease` and `ListReleases` call
counts, and the lines displayed. -/
structure EvalResult where
  version : String
  err : Option GoErr
  fs : List Entry
  installCalls : Nat
  listRemoteCalls : Nat
  displayed : List String
deriving DecidableEq, Repr

/-- Embeds `searchInstallRemote` (versionmanager.go): fetch and sort
the remote list, take the first version satisfying the predicate;
without auto-install pair it with `ErrNoCompatibleLocally`, otherwise
install it; `errNoCompatible` when nothing satisfies. -/
def searchInstallRemote (folder : String) (remote : Except GoErr (List String)) (retr : Except GoErr Unit) (fs : List Entry) (pi : PredInfo) (noInstall : Bool) : EvalResult :=
  match ListRemote remote pi.ReverseOrder with
  | .error e => ⟨"", some e, fs, 0, 1, []⟩
  | .ok versions =>
    match versions.find? pi.Predicate with
    | some version =>
      if noInstall then
        ⟨version, some .noCompatibleLocally, fs, 0, 1,
          ["Found compatible version remotely : " ++ version, autoInstallDisabledMsg folder version]⟩
      else
        let ir := installSpecificVersion folder retr fs version
        ⟨version, ir.err, ir.fs, ir.installCalls, 1,
          ("Found compatible version remotely : " ++ version) :: ir.displayed⟩
    | none => ⟨"", some .noCompatible, fs, 0, 1, []⟩

/-- Embeds `Evaluate` (versionmanager.go). Oracles: `predParse` is the
outcome of `semantic.ParsePredicate`, `remote` of
`retriever.ListReleases`, `retr` of `retriever.InstallRelease`; `fs` is
the install directory. A concrete version goes through the presence
gate (no-install) or the installer; otherwise the predicate filters the
local inventory (unless force-remote) and then the remote search. -/
def Evaluate (folder : String) (noInstall forceRemote : Bool)
    (predParse : Except GoErr PredInfo) (remote : Except GoErr (List String))
    (retr : Except GoErr Unit) (fs : List Entry) (requestedVersion : String) : EvalResult :=
  match parseVersion requestedVersion with
  | some cleanedVersion =>
    if noInstall then
      if checkVersionInstallation fs cleanedVersion then
        ⟨cleanedVersion, none, fs, 0, 0, []⟩
      else
        ⟨cleanedVersion, some .noCompatibleLocally, fs, 0, 0,
          [autoInstallDisabledMsg folder cleanedVersion]⟩
    else
      let ir := installSpecificVersion folder retr fs cleanedVersion
      ⟨cleanedVersion, ir.err, ir.fs, ir.installCalls, 0, ir.displayed⟩
  | none =>
    match predParse with
    | .error e => ⟨"", some e, fs, 0, 0, []⟩
    | .ok pi =>
      if forceRemote then searchInstallRemote folder remote retr fs pi noInstall
      else
        match (innerListLocal fs pi.ReverseOrder).find? pi.Predicate with
        | some version =>
          ⟨version, none, fs, 0, 0, ["Found compatible version installed locally : " ++ version]⟩
        | none =>
          let r := searchInstallRemote folder remote retr fs pi noInstall
          { r with displayed := "No compatible version found locally, search a remote one..." :: r.displayed }

/-- Embeds `Install` (versionmanager.go): a concrete version goes
straight to the installer; otherwise the remote search runs with
no-install forced off. -/
def Install (folder : String) (predParse : Except GoErr PredInfo)
    (remote : Except GoErr (List String)) (retr : Except GoErr Unit)
    (fs : List Entry) (requestedVersion : String) : EvalResult :=
  match parseVersion requestedVersion with
  | some cleanedVersion =>
    let ir := installSpecificVersion folder retr fs cleanedVersion
    ⟨cleanedVersion, ir.err, ir.fs, ir.installCalls, 0, ir.displayed⟩
  | none =>
    match predParse with
    | .error e => ⟨"", some e, fs, 0, 0, []⟩
    | .ok pi => searchInstallRemote folder remote retr fs pi false

/-- The sources `Resolve` may consult, in priority order. -/
inductive Source where
  | envVersion
  | versionFiles
  | envDefault
  | flatFile
  | fallback
deriving DecidableEq, Repr

/-- Embeds `Resolve` (versionmanager.go). Oracles: `versionEnv` and
`defaultVersionEnv` are the values of the two environment variables
(`""` = unset, as `os.Getenv` reports); `versionFilesRes` is the
outcome of `ResolveWithVersionFiles` (the external
`semantic.RetrieveVersion` over the version files), `flatFileRes` of
`flatparser.RetrieveVersion` on `<root>/<folder>/version`, both with
`""` meaning no version found. The second component instruments the
resolution: the sources consulted, in order. -/
def Resolve (versionEnv : String) (versionFilesRes : Except GoErr String)
    (defaultVersionEnv : String) (flatFileRes : Except GoErr String)
    (defaultStrategy : String) : Except GoErr String × List Source :=
  if versionEnv ≠ "" then (.ok versionEnv, [.envVersion])
  else
    match versionFilesRes with
    | .error e => (.error e, [.envVersion, .versionFiles])
    | .ok fromFiles =>
      if fromFiles ≠ "" then (.ok fromFiles, [.envVersion, .versionFiles])
      else if defaultVersionEnv ≠ "" then
        (.ok defaultVersionEnv, [.envVersion, .versionFiles, .envDefault])
      else
        match flatFileRes with
        | .error e => (.error e, [.envVersion, .versionFiles, .envDefault, .flatFile])
        | .ok fromFlat =>
          if fromFlat ≠ "" then
            (.ok fromFlat, [.envVersion, .versionFiles, .envDefault, .flatFile])
          else
            (.ok defaultStrategy, [.envVersion, .versionFiles, .envDefault, .flatFile, .fallback])

/-- `filepath.Join(m.conf.RootPath, m.FolderName, "version")`. -/
def rootVersionFilePath (rootPath folder : String) : String :=
  rootPath ++ "/" ++ folder ++ "/version"

/-- Result of `Use`: the returned error if any, the file written (path,
content) if any, the install directory afterwards, and the lines
displayed. -/
structure UseResult where
  err : Option GoErr
  written : Option (String × String)
  fs : List Entry
  displayed : List String
deriving DecidableEq, Repr

/-- Embeds `Use` (versionmanager.go): evaluate, give up on any error
other than `ErrNoCompatibleLocally` (which is only reported), then
write the detected version to the first version file (working dir) or
to `<root>/<folder>/version` (`writeFile` assumed healthy; it displays
its confirmation line). -/
def Use (rootPath folder : String) (versionFileNames : List String)
    (noInstall forceRemote : Bool) (predParse : Except GoErr PredInfo)
    (remote : Except GoErr (List String)) (retr : Except GoErr Unit)
    (fs : List Entry) (requestedVersion : String) (workingDir : Bool) : UseResult :=
  let ev := Evaluate folder noInstall forceRemote predParse remote retr fs requestedVersion
  let targetFilePath :=
    if workingDir then versionFileNames.headD "" else rootVersionFilePath rootPath folder
  let write : List String → UseResult := fun extra =>
    ⟨none, some (targetFilePath, ev.version), ev.fs,
      ev.displayed ++ extra ++ ["Written " ++ ev.version ++ " in " ++ targetFilePath]⟩
  match ev.err with
  | some e =>
    if e = .noCompatibleLocally then write ["no compatible version found locally"]
    else ⟨some e, none, ev.fs, ev.displayed⟩
  | none => write []

theorem cmpSeg_nil_right : ∀ xs : List Nat, cmpSeg xs [] = if allZero xs then 0 else 1
  | [] => by simp [cmpSeg, allZero]
  | x :: xs => by
    by_cases h : 0 < x
    · have hx : (x == 0) = false := by simp; omega
      simp [cmpSeg, h, allZero, hx]
    · have hx : x = 0 := by omega
      subst hx
      simp [cmpSeg, allZero, cmpSeg_nil_right xs]

theorem cmpSeg_nil_le (ys : List Nat) : cmpSeg [] ys ≤ 0 := by
  simp only [cmpSeg]
  split <;> omega

theorem cmpSeg_antisymm : ∀ a b : List Nat, cmpSeg a b = -cmpSeg b a
  | [], ys => by
    rw [cmpSeg_nil_right ys]
    simp only [cmpSeg]
    split <;> simp
  | x :: xs, [] => by
    rw [cmpSeg_nil_right (x :: xs)]
    simp only [cmpSeg]
    split <;> simp
  | x :: xs, y :: ys => by
    rcases Nat.lt_trichotomy x y with h | h | h
    · have h2 : ¬ y < x := by omega
      simp [cmpSeg, h, h2]
    · subst h
      simp [cmpSeg, cmpSeg_antisymm xs ys]
    · have h2 : ¬ x < y := by omega
      simp [cmpSeg, h, h2]

theorem cmpSeg_trans : ∀ a b c : List Nat, cmpSeg a b ≤ 0 → cmpSeg b c ≤ 0 → cmpSeg a c ≤ 0
  | [], _, c => fun _ _ => cmpSeg_nil_le c
  | x :: xs, [], [] => fun h1 _ => h1
  | x :: xs, [], z :: zs => by
    intro h1 h2
    rw [cmpSeg_nil_right (x :: xs)] at h1
    have hz : allZero (x :: xs) = true := by
      by_contra hc
      simp only [hc] at h1
      simp at h1
    have hx0 : x = 0 ∧ allZero xs = true := by
      simpa [allZero] using hz
    simp only [cmpSeg]
    split_ifs with hlt hgt
    · omega
    · omega
    · have hxs : cmpSeg xs [] ≤ 0 := by rw [cmpSeg_nil_right xs, hx0.2]; simp
      exact cmpSeg_trans xs [] zs hxs (cmpSeg_nil_le zs)
  | x :: xs, y :: ys, [] => by
    intro h1 h2
    rw [cmpSeg_nil_right (y :: ys)] at h2
    have hz : allZero (y :: ys) = true := by
      by_contra hc
      simp only [hc] at h2
      simp at h2
    have hy0 : y = 0 ∧ allZero ys = true := by
      simpa [allZero] using hz
    simp only [cmpSeg] at h1
    split_ifs at h1 with hlt hgt
    · omega
    · omega
    · have hx0 : x = 0 := by omega
      rw [cmpSeg_nil_right (x :: xs)]
      have hys : cmpSeg ys [] ≤ 0 := by rw [cmpSeg_nil_right ys, hy0.2]; simp
      have hxs : cmpSeg xs [] ≤ 0 := cmpSeg_trans xs ys [] h1 hys
      rw [cmpSeg_nil_right xs] at hxs
      have : allZero xs = true := by
        by_contra hc
        simp only [hc] at hxs
        simp at hxs
      simp [allZero, hx0, this]
  | x :: xs, y :: ys, z :: zs => by
    intro h1 h2
    simp only [cmpSeg] at h1 h2 ⊢
    split_ifs at h1 h2 ⊢ <;>
      first
        | omega
        | exact cmpSeg_trans xs ys zs h1 h2

theorem cmpVersion_antisymm (a b : String) : cmpVersion a b = -cmpVersion b a :=
  cmpSeg_antisymm _ _

theorem cmpVersion_trans (a b c : String) :
    cmpVersion a b ≤ 0 → cmpVersion b c ≤ 0 → cmpVersion a c ≤ 0 :=
  cmpSeg_trans _ _ _

theorem cmpVersion_total (a b : String) : cmpVersion a b ≤ 0 ∨ cmpVersion b a ≤ 0 := by
  have h := cmpVersion_antisymm a b
  omega

theorem orderedInsertCmp_perm {α : Type} (cmp : α → α → Int) (a : α) :
    ∀ l : List α, List.Perm (orderedInsertCmp cmp a l) (a :: l)
  | [] => List.Perm.refl _
  | b :: l => by
    simp only [orderedInsertCmp]
    split
    · exact List.Perm.refl _
    · exact ((orderedInsertCmp_perm cmp a l).cons b).trans (List.Perm.swap a b l)

theorem sortCmp_perm {α : Type} (cmp : α → α → Int) : ∀ l : List α, List.Perm (sortCmp cmp l) l
  | [] => List.Perm.refl _
  | a :: l => (orderedInsertCmp_perm cmp a _).trans ((sortCmp_perm cmp l).cons a)

theorem orderedInsertCmp_pairwise {α : Type} (cmp : α → α → Int)
    (htot : ∀ a b, cmp a b ≤ 0 ∨ cmp b a ≤ 0)
    (htrans : ∀ a b c, cmp a b ≤ 0 → cmp b c ≤ 0 → cmp a c ≤ 0) (a : α) :
    ∀ l : List α, l.Pairwise (fun x y => cmp x y ≤ 0) →
      (orderedInsertCmp cmp a l).Pairwise (fun x y => cmp x y ≤ 0)
  | [], _ => by simp [orderedInsertCmp]
  | b :: l, hl => by
    rcases List.pairwise_cons.mp hl with ⟨hb, hl2⟩
    simp only [orderedInsertCmp]
    by_cases h : cmp a b ≤ 0
    · rw [if_pos h]
      refine List.pairwise_cons.mpr ⟨?_, hl⟩
      intro x hx
      rcases List.mem_cons.mp hx with hx | hx
      · exact hx ▸ h
      · exact htrans a b x h (hb x hx)
    · rw [if_neg h]
      have hba : cmp b a ≤ 0 := (htot a b).resolve_left h
      refine List.pairwise_cons.mpr
        ⟨?_, orderedInsertCmp_pairwise cmp htot htrans a l hl2⟩
      intro x hx
      have hx2 : x ∈ a :: l := (orderedInsertCmp_perm cmp a l).subset hx
      rcases List.mem_cons.mp hx2 with hx2 | hx2
      · exact hx2 ▸ hba
      · exact hb x hx2

theorem sortCmp_pairwise {α : Type} (cmp : α → α → Int)
    (htot : ∀ a b, cmp a b ≤ 0 ∨ cmp b a ≤ 0)
    (htrans : ∀ a b c, cmp a b ≤ 0 → cmp b c ≤ 0 → cmp a c ≤ 0) :
    ∀ l : List α, (sortCmp cmp l).Pairwise (fun x y => cmp x y ≤ 0)
  | [] => List.Pairwise.nil
  | a :: l =>
    orderedInsertCmp_pairwise cmp htot htrans a (sortCmp cmp l)
      (sortCmp_pairwise cmp htot htrans l)

theorem sorted_perm_eq {α : Type} {le : α → α → Prop} :
    ∀ {l₁ l₂ : List α}, List.Perm l₁ l₂ → l₁.Pairwise le → l₂.Pairwise le →
      (∀ a, a ∈ l₁ → ∀ b, b ∈ l₁ → le a b → le b a → a = b) → l₁ = l₂
  | [], l₂, hp, _, _, _ => hp.symm.eq_nil.symm ▸ rfl
  | a :: t₁, l₂, hp, h₁, h₂, hanti => by
    cases l₂ with
    | nil => exact absurd hp.eq_nil (by simp)
    | cons b t₂ =>
      have hab : a = b := by
        have ha2 : a ∈ b :: t₂ := hp.subset (List.mem_cons_self a t₁)
        rcases List.mem_cons.mp ha2 with h | ha2
        · exact h
        · have hb1 : b ∈ a :: t₁ := hp.symm.subset (List.mem_cons_self b t₂)
          rcases List.mem_cons.mp hb1 with h | hb1
          · exact h.symm
          · exact hanti a (List.mem_cons_self a t₁) b (List.mem_cons.mpr (Or.inr hb1))
              ((List.pairwise_cons.mp h₁).1 b hb1) ((List.pairwise_cons.mp h₂).1 a ha2)
      subst hab
      have ht : t₁ = t₂ :=
        sorted_perm_eq hp.cons_inv (List.pairwise_cons.mp h₁).2 (List.pairwise_cons.mp h₂).2
          (fun x hx y hy => hanti x (List.mem_cons.mpr (Or.inr hx)) y (List.mem_cons.mpr (Or.inr hy)))
      rw [ht]

theorem sortCmp_flip_reverse {α : Type} (cmp : α → α → Int)
    (hanti : ∀ a b, cmp a b = -cmp b a)
    (htrans : ∀ a b c, cmp a b ≤ 0 → cmp b c ≤ 0 → cmp a c ≤ 0)
    (l : List α)
    (hties : ∀ a, a ∈ l → ∀ b, b ∈ l → cmp a b = 0 → a = b) :
    sortCmp (fun a b => cmp b a) l = (sortCmp cmp l).reverse := by
  have htot : ∀ a b, cmp a b ≤ 0 ∨ cmp b a ≤ 0 := by
    intro a b
    have h := hanti a b
    omega
  have hperm : List.Perm (sortCmp (fun a b => cmp b a) l) ((sortCmp cmp l).reverse) :=
    (sortCmp_perm _ l).trans
      (((sortCmp cmp l).reverse_perm.trans (sortCmp_perm cmp l)).symm)
  have hs1 : (sortCmp (fun a b => cmp b a) l).Pairwise (fun x y => cmp y x ≤ 0) :=
    sortCmp_pairwise (fun a b => cmp b a)
      (fun a b => (htot b a)) (fun a b c h1 h2 => htrans c b a h2 h1) l
  have hs2 : ((sortCmp cmp l).reverse).Pairwise (fun x y => cmp y x ≤ 0) := by
    rw [List.pairwise_reverse]
    exact sortCmp_pairwise cmp htot htrans l
  refine sorted_perm_eq hperm hs1 hs2 ?_
  intro a ha b hb h1 h2
  have ha2 : a ∈ l := ((sortCmp_perm _ l).subset ha : a ∈ l)
  have hb2 : b ∈ l := ((sortCmp_perm _ l).subset hb : b ∈ l)
  refine hties a ha2 b hb2 ?_
  have h3 := hanti a b
  omega


theorem insertAsset_keys (assets : List (String × String)) (name url : String) :
    (insertAsset assets name url).map Prod.fst
      = if (assets.lookup name).isSome then assets.map Prod.fst
        else assets.map Prod.fst ++ [name] := by
  unfold insertAsset
  split
  · rw [List.map_map]
    congr 1
    funext p
    by_cases h : p.1 = name
    · simp [h]
    · simp [h]
  · simp

theorem insertAsset_length (assets : List (String × String)) (name url : String) :
    (insertAsset assets name url).length
      = if (assets.lookup name).isSome then assets.length else assets.length + 1 := by
  unfold insertAsset
  split
  · simp
  · simp

theorem lookup_isSome_of_mem_keys (assets : List (String × String)) (k : String)
    (h : k ∈ assets.map Prod.fst) : (assets.lookup k).isSome := by
  rw [List.lookup_isSome_iff]
  rcases List.mem_map.mp h with ⟨p, hp, hpk⟩
  exact ⟨p, hp, by simp [hpk]⟩

theorem extractAssetsLoop_keys {searched : List String} {waited : Nat} :
    ∀ (vs : List JSON) (assets : List (String × String)),
      (assets.map Prod.fst).Nodup → (∀ k ∈ assets.map Prod.fst, k ∈ searched) →
      (∀ m, extractAssetsLoop searched waited assets vs = .done m →
        (m.map Prod.fst).Nodup ∧ (∀ k ∈ m.map Prod.fst, k ∈ searched) ∧ m.length = waited)
      ∧ (∀ m, extractAssetsLoop searched waited assets vs = .more m →
        (m.map Prod.fst).Nodup ∧ (∀ k ∈ m.map Prod.fst, k ∈ searched))
  | [], assets, hnd, hsub => by
    constructor
    · intro m hm
      simp [extractAssetsLoop] at hm
    · intro m hm
      simp only [extractAssetsLoop, AssetScan.more.injEq] at hm
      exact hm ▸ ⟨hnd, hsub⟩
  | value :: rest, assets, hnd, hsub => by
    have hname : ∀ assetName url,
        searched.contains assetName = true →
        (((insertAsset assets assetName url).map Prod.fst).Nodup
          ∧ ∀ k ∈ (insertAsset assets assetName url).map Prod.fst, k ∈ searched) := by
      intro assetName url hc
      have hmem : assetName ∈ searched := by
        simpa [List.contains] using hc
      rw [insertAsset_keys]
      by_cases hl : (assets.lookup assetName).isSome
      · rw [if_pos hl]
        exact ⟨hnd, hsub⟩
      · rw [if_neg hl]
        refine ⟨?_, ?_⟩
        · refine List.Nodup.append hnd (List.nodup_singleton assetName) ?_
          intro x hx hx2
          simp only [List.mem_singleton] at hx2
          exact hl (lookup_isSome_of_mem_keys assets assetName (hx2 ▸ hx))
        · intro k hk
          rcases List.mem_append.mp hk with hk | hk
          · exact hsub k hk
          · simp only [List.mem_singleton] at hk
            exact hk ▸ hmem
    constructor
    · intro m hm
      cases hn : value.getStr "name" with
      | none => simp [extractAssetsLoop, hn] at hm
      | some assetName =>
        simp only [extractAssetsLoop, hn] at hm
        by_cases hc : searched.contains assetName
        · rw [if_pos hc] at hm
          cases hu : value.getStr "browser_download_url" with
          | none => rw [hu] at hm; cases hm
          | some url =>
            rw [hu] at hm
            have hm2 : (if (insertAsset assets assetName url).length = waited
                then AssetScan.done (insertAsset assets assetName url)
                else extractAssetsLoop searched waited (insertAsset assets assetName url) rest)
                = AssetScan.done m := hm
            have hinv := hname assetName url hc
            by_cases hw : (insertAsset assets assetName url).length = waited
            · rw [if_pos hw] at hm2
              cases hm2
              exact ⟨hinv.1, hinv.2, hw⟩
            · rw [if_neg hw] at hm2
              exact (extractAssetsLoop_keys rest _ hinv.1 hinv.2).1 m hm2
        · rw [if_neg hc] at hm
          exact (extractAssetsLoop_keys rest assets hnd hsub).1 m hm
    · intro m hm
      cases hn : value.getStr "name" with
      | none => simp [extractAssetsLoop, hn] at hm
      | some assetName =>
        simp only [extractAssetsLoop, hn] at hm
        by_cases hc : searched.contains assetName
        · rw [if_pos hc] at hm
          cases hu : value.getStr "browser_download_url" with
          | none => rw [hu] at hm; cases hm
          | some url =>
            rw [hu] at hm
            have hm2 : (if (insertAsset assets assetName url).length = waited
                then AssetScan.done (insertAsset assets assetName url)
                else extractAssetsLoop searched waited (insertAsset assets assetName url) rest)
                = AssetScan.more m := hm
            have hinv := hname assetName url hc
            by_cases hw : (insertAsset assets assetName url).length = waited
            · rw [if_pos hw] at hm2
              cases hm2
            · rw [if_neg hw] at hm2
              exact (extractAssetsLoop_keys rest _ hinv.1 hinv.2).2 m hm2
        · rw [if_neg hc] at hm
          exact (extractAssetsLoop_keys rest assets hnd hsub).2 m hm

theorem done_complete_of_nodup {searched : List String} {m : List (String × String)}
    (hnd : searched.Nodup) (hknd : (m.map Prod.fst).Nodup)
    (hsub : ∀ k ∈ m.map Prod.fst, k ∈ searched) (hlen : m.length = searched.length) :
    ∀ n ∈ searched, (m.lookup n).isSome := by
  have hsp : List.Subperm (m.map Prod.fst) searched := hknd.subperm hsub
  have hperm : List.Perm (m.map Prod.fst) searched :=
    hsp.perm_of_length_le (by simp [hlen])
  intro n hn
  exact lookup_isSome_of_mem_keys m n (hperm.symm.subset hn)

theorem downloadAssetLoop_complete {searched : List String} {waited : Nat} :
    ∀ (pages : List (Except String HttpResponse)) (assets : List (String × String)),
      (assets.map Prod.fst).Nodup → (∀ k ∈ assets.map Prod.fst, k ∈ searched) →
      ∀ m, downloadAssetLoop searched waited assets pages = .ok (some m) →
        (m.map Prod.fst).Nodup ∧ (∀ k ∈ m.map Prod.fst, k ∈ searched) ∧ m.length = waited
  | [], assets, _, _, m, hm => by simp [downloadAssetLoop] at hm
  | response :: rest, assets, hnd, hsub, m, hm => by
    simp only [downloadAssetLoop] at hm
    cases hresp : apiGetRequest response with
    | error e => rw [hresp] at hm; cases hm
    | ok value =>
      rw [hresp] at hm
      have hm2 : (match extractAssets searched waited assets value with
          | AssetScan.done found => (Except.ok (some found) : Except GoErr (Option (List (String × String))))
          | AssetScan.fail e => Except.error e
          | AssetScan.more acc => downloadAssetLoop searched waited acc rest)
          = Except.ok (some m) := hm
      cases hscan : extractAssets searched waited assets value with
      | fail e => rw [hscan] at hm2; cases hm2
      | done found =>
        rw [hscan] at hm2
        cases hm2
        cases value with
        | arr elems =>
          cases elems with
          | nil => simp [extractAssets] at hscan
          | cons v vs =>
            exact (extractAssetsLoop_keys (v :: vs) assets hnd hsub).1 m hscan
        | null => simp [extractAssets] at hscan
        | bool b => simp [extractAssets] at hscan
        | num n => simp [extractAssets] at hscan
        | str s => simp [extractAssets] at hscan
        | obj fields => simp [extractAssets] at hscan
      | more acc =>
        rw [hscan] at hm2
        have hinv : (acc.map Prod.fst).Nodup ∧ ∀ k ∈ acc.map Prod.fst, k ∈ searched := by
          cases value with
          | arr elems =>
            cases elems with
            | nil => simp [extractAssets] at hscan
            | cons v vs =>
              exact (extractAssetsLoop_keys (v :: vs) assets hnd hsub).2 acc hscan
          | null => simp [extractAssets] at hscan
          | bool b => simp [extractAssets] at hscan
          | num n => simp [extractAssets] at hscan
          | str s => simp [extractAssets] at hscan
          | obj fields => simp [extractAssets] at hscan
        exact downloadAssetLoop_complete rest acc hinv.1 hinv.2 m hm2

theorem parseVersion_ne_empty {s c : String} (h : parseVersion s = some c) : c ≠ "" := by
  intro hc
  subst hc
  simp only [parseVersion] at h
  by_cases he : (dropLeadingV s).data.isEmpty
  · rw [if_pos he] at h
    cases h
  · rw [if_neg he] at h
    by_cases hall :
        (splitSegs (dropLeadingV s).data).all (fun seg => !seg.isEmpty && seg.all Char.isDigit)
    · rw [if_pos hall] at h
      have hd : dropLeadingV s = "" := by injection h
      rw [hd] at he
      exact he (by decide)
    · rw [if_neg hall] at h
      cases h

theorem checkVersionInstallation_append_self (fs : List Entry) (v : String) (d : Bool) :
    checkVersionInstallation (fs ++ [⟨v, d⟩]) v = true := by
  simp [checkVersionInstallation]

theorem installSpecificVersion_installed (folder c : String) (retr : Except GoErr Unit)
    (fs : List Entry) (hc : c ≠ "")
    (hok : (installSpecificVersion folder retr fs c).err = none) :
    checkVersionInstallation (installSpecificVersion folder retr fs c).fs c = true := by
  unfold installSpecificVersion at hok ⊢
  rw [if_neg hc] at hok ⊢
  by_cases hi : checkVersionInstallation fs c
  · rw [if_pos hi] at hok ⊢
    simpa using hi
  · rw [if_neg hi, if_neg hi] at hok ⊢
    cases retr with
    | ok u => simp [checkVersionInstallation_append_self]
    | error e => simp at hok

/-- Claim C1: `installSpecificVersion` rejects the empty version with the
`EmptyVersion` error; when the version directory already exists at the
first (unlocked) existence check it displays the already-installed
message and returns success with no retriever invocation; consequently
a second `Install V` of a concrete version right after a successful
`Install V` performs no retriever invocation (neither `InstallRelease`
nor `ListReleases`). -/
theorem c1_install_idempotent (folder V c : String)
    (retr retr2 : Except GoErr Unit) (predParse predParse2 : Except GoErr PredInfo)
    (remote remote2 : Except GoErr (List String)) (fs : List Entry) :
    installSpecificVersion folder retr fs "" = ⟨some .emptyVersion, fs, 0, []⟩
    ∧ (∀ v : String, v ≠ "" → checkVersionInstallation fs v = true →
        installSpecificVersion folder retr fs v = ⟨none, fs, 0, [alreadyInstalledMsg folder v]⟩)
    ∧ (parseVersion V = some c →
        (Install folder predParse remote retr fs V).err = none →
        (Install folder predParse2 remote2 retr2
            (Install folder predParse remote retr fs V).fs V).installCalls = 0
        ∧ (Install folder predParse2 remote2 retr2
            (Install folder predParse remote retr fs V).fs V).listRemoteCalls = 0) := by
  refine ⟨?_, ?_, ?_⟩
  · simp [installSpecificVersion]
  · intro v hv hchk
    simp [installSpecificVersion, hv, hchk]
  · intro hp hok
    have hc : c ≠ "" := parseVersion_ne_empty hp
    simp only [Install, hp] at hok ⊢
    have hins := installSpecificVersion_installed folder c retr fs hc hok
    constructor
    · generalize hg : (installSpecificVersion folder retr fs c).fs = fs2
      rw [hg] at hins
      unfold installSpecificVersion
      rw [if_neg hc, if_pos hins]
    · trivial

/-- Witness for C1: folder OpenTofu, concrete version 1.6.2, empty
install directory, succeeding retriever. -/
theorem c1_witness :
    parseVersion "1.6.2" = some "1.6.2"
    ∧ (Install "OpenTofu" (Except.error (GoErr.other "p")) (Except.ok [])
        (Except.ok ()) [] "1.6.2").err = none
    ∧ (Install "OpenTofu" (Except.error (GoErr.other "p")) (Except.ok []) (Except.ok ())
        (Install "OpenTofu" (Except.error (GoErr.other "p")) (Except.ok [])
          (Except.ok ()) [] "1.6.2").fs
        "1.6.2").installCalls = 0 := by
  refine ⟨by decide, by decide, ?_⟩
  exact ((c1_install_idempotent "OpenTofu" "1.6.2" "1.6.2" (Except.ok ()) (Except.ok ())
      (Except.error (GoErr.other "p")) (Except.error (GoErr.other "p"))
      (Except.ok []) (Except.ok []) []).2.2 (by decide) (by decide)).1

/-- Claim C10: the install-presence test is `os.Stat`, so any
filesystem entry named like the version, including a plain regular
file, counts as installed; `installSpecificVersion` then returns
success with the already-installed message and never invokes the
retriever. -/
theorem c10_file_counts_installed (folder v : String) (retr : Except GoErr Unit)
    (fs : List Entry) (hv : v ≠ "") (hmem : Entry.mk v false ∈ fs) :
    checkVersionInstallation fs v = true
    ∧ installSpecificVersion folder retr fs v = ⟨none, fs, 0, [alreadyInstalledMsg folder v]⟩ := by
  have hchk : checkVersionInstallation fs v = true := by
    simp only [checkVersionInstallation, List.any_eq_true]
    exact ⟨⟨v, false⟩, hmem, by simp⟩
  exact ⟨hchk, by simp [installSpecificVersion, hv, hchk]⟩

/-- Witness for C10: a plain file named 1.6.2 in the install directory. -/
theorem c10_witness :
    checkVersionInstallation [⟨"1.6.2", false⟩] "1.6.2" = true
    ∧ installSpecificVersion "OpenTofu" (Except.ok ()) [⟨"1.6.2", false⟩] "1.6.2"
        = ⟨none, [⟨"1.6.2", false⟩], 0, [alreadyInstalledMsg "OpenTofu" "1.6.2"]⟩ :=
  c10_file_counts_installed "OpenTofu" "1.6.2" (Except.ok ()) [⟨"1.6.2", false⟩]
    (by decide) (by decide)

/-- Claim C5: with auto-install disabled, `Evaluate` of a concrete
version returns the canonical version with no error when it is
installed, and pairs it with `ErrNoCompatibleLocally` (displaying the
TENV_AUTO_INSTALL diagnostic) when it is not; in the latter case the
install directory is unchanged and the retriever is never invoked. -/
theorem c5_no_install_gate (folder requested c : String) (forceRemote : Bool)
    (predParse : Except GoErr PredInfo) (remote : Except GoErr (List String))
    (retr : Except GoErr Unit) (fs : List Entry)
    (hp : parseVersion requested = some c) :
    (checkVersionInstallation fs c = true →
      Evaluate folder true forceRemote predParse remote retr fs requested
        = ⟨c, none, fs, 0, 0, []⟩)
    ∧ (checkVersionInstallation fs c = false →
      Evaluate folder true forceRemote predParse remote retr fs requested
        = ⟨c, some .noCompatibleLocally, fs, 0, 0, [autoInstallDisabledMsg folder c]⟩) := by
  constructor
  · intro h
    simp [Evaluate, hp, h]
  · intro h
    simp [Evaluate, hp, h]

/-- Witness for C5: evaluating 1.6.2 with auto-install disabled and an
empty install directory. -/
theorem c5_witness :
    parseVersion "1.6.2" = some "1.6.2"
    ∧ checkVersionInstallation [] "1.6.2" = false
    ∧ Evaluate "OpenTofu" true false (Except.error (GoErr.other "p")) (Except.ok [])
        (Except.ok ()) [] "1.6.2"
        = ⟨"1.6.2", some .noCompatibleLocally, [], 0, 0,
            [autoInstallDisabledMsg "OpenTofu" "1.6.2"]⟩ := by
  refine ⟨by decide, by decide, ?_⟩
  exact (c5_no_install_gate "OpenTofu" "1.6.2" "1.6.2" false (Except.error (GoErr.other "p"))
    (Except.ok []) (Except.ok ()) [] (by decide)).2 (by decide)

/-- Claim C3: `Resolve` consults its sources in the strict order
version env var, version files, default-version env var, flat root
version file, fallback strategy; the first non-empty value wins, no
lower-priority source is consulted afterwards (witnessed by the
instrumented consultation list), and an error from a source
short-circuits the resolution. -/
theorem c3_resolve_precedence (versionEnv defaultVersionEnv defaultStrategy : String)
    (versionFilesRes flatFileRes : Except GoErr String) :
    (versionEnv ≠ "" →
      Resolve versionEnv versionFilesRes defaultVersionEnv flatFileRes defaultStrategy
        = (.ok versionEnv, [.envVersion]))
    ∧ (∀ e, versionEnv = "" → versionFilesRes = .error e →
      Resolve versionEnv versionFilesRes defaultVersionEnv flatFileRes defaultStrategy
        = (.error e, [.envVersion, .versionFiles]))
    ∧ (∀ v, versionEnv = "" → versionFilesRes = .ok v → v ≠ "" →
      Resolve versionEnv versionFilesRes defaultVersionEnv flatFileRes defaultStrategy
        = (.ok v, [.envVersion, .versionFiles]))
    ∧ (versionEnv = "" → versionFilesRes = .ok "" → defaultVersionEnv ≠ "" →
      Resolve versionEnv versionFilesRes defaultVersionEnv flatFileRes defaultStrategy
        = (.ok defaultVersionEnv, [.envVersion, .versionFiles, .envDefault]))
    ∧ (∀ e, versionEnv = "" → versionFilesRes = .ok "" → defaultVersionEnv = "" →
      flatFileRes = .error e →
      Resolve versionEnv versionFilesRes defaultVersionEnv flatFileRes defaultStrategy
        = (.error e, [.envVersion, .versionFiles, .envDefault, .flatFile]))
    ∧ (∀ v, versionEnv = "" → versionFilesRes = .ok "" → defaultVersionEnv = "" →
      flatFileRes = .ok v → v ≠ "" →
      Resolve versionEnv versionFilesRes defaultVersionEnv flatFileRes defaultStrategy
        = (.ok v, [.envVersion, .versionFiles, .envDefault, .flatFile]))
    ∧ (versionEnv = "" → versionFilesRes = .ok "" → defaultVersionEnv = "" →
      flatFileRes = .ok "" →
      Resolve versionEnv versionFilesRes defaultVersionEnv flatFileRes defaultStrategy
        = (.ok defaultStrategy,
            [.envVersion, .versionFiles, .envDefault, .flatFile, .fallback])) := by
  refine ⟨?_, ?_, ?_, ?_, ?_, ?_, ?_⟩
  · intro h
    simp [Resolve, h]
  · intro e h1 h2
    simp [Resolve, h1, h2]
  · intro v h1 h2 h3
    simp [Resolve, h1, h2, h3]
  · intro h1 h2 h3
    simp [Resolve, h1, h2, h3]
  · intro e h1 h2 h3 h4
    simp [Resolve, h1, h2, h3, h4]
  · intro v h1 h2 h3 h4 h5
    simp [Resolve, h1, h2, h3, h4, h5]
  · intro h1 h2 h3 h4
    simp [Resolve, h1, h2, h3, h4]

/-- Witness for C3: the spec scenario with the version env var set to
1.5.0, a version file carrying 1.6.0 and a flat file carrying 1.4.0:
only the env var is consulted. -/
theorem c3_witness :
    "1.5.0" ≠ ""
    ∧ Resolve "1.5.0" (.ok "1.6.0") "" (.ok "1.4.0") "latest-allowed"
        = (.ok "1.5.0", [.envVersion]) := by
  refine ⟨by decide, ?_⟩
  exact (c3_resolve_precedence "1.5.0" "" "latest-allowed" (.ok "1.6.0") (.ok "1.4.0")).1
    (by decide)

/-- Claim C4: `searchInstallRemote` sorts the remote list by the
requested order and takes the first version satisfying the predicate:
with `no_install` it pairs that version with `ErrNoCompatibleLocally`,
otherwise it hands it to the installer; when nothing satisfies it
fails with `errNoCompatible`, and a remote listing error surfaces. -/
theorem c4_search_install_remote (folder : String) (retr : Except GoErr Unit)
    (fs : List Entry) (pi : PredInfo) (vs : List String) (e : GoErr) :
    (∀ ni, searchInstallRemote folder (.error e) retr fs pi ni = ⟨"", some e, fs, 0, 1, []⟩)
    ∧ (∀ v, (sortCmp (reverser cmpVersion pi.ReverseOrder) vs).find? pi.Predicate = some v →
        searchInstallRemote folder (.ok vs) retr fs pi true
          = ⟨v, some .noCompatibleLocally, fs, 0, 1,
              ["Found compatible version remotely : " ++ v, autoInstallDisabledMsg folder v]⟩
        ∧ searchInstallRemote folder (.ok vs) retr fs pi false
          = ⟨v, (installSpecificVersion folder retr fs v).err,
              (installSpecificVersion folder retr fs v).fs,
              (installSpecificVersion folder retr fs v).installCalls, 1,
              ("Found compatible version remotely : " ++ v)
                :: (installSpecificVersion folder retr fs v).displayed⟩)
    ∧ ((sortCmp (reverser cmpVersion pi.ReverseOrder) vs).find? pi.Predicate = none →
        ∀ ni, searchInstallRemote folder (.ok vs) retr fs pi ni
          = ⟨"", some .noCompatible, fs, 0, 1, []⟩) := by
  refine ⟨?_, ?_, ?_⟩
  · intro ni
    simp [searchInstallRemote, ListRemote]
  · intro v hv
    constructor
    · simp [searchInstallRemote, ListRemote, hv]
    · simp [searchInstallRemote, ListRemote, hv]
  · intro hnone ni
    simp [searchInstallRemote, ListRemote, hnone]

/-- Witness for C4: latest-allowed ordering over two remote versions
with a predicate accepting 1.5.x, with and without auto-install. -/
theorem c4_witness :
    (sortCmp (reverser cmpVersion true) ["1.5.0", "1.5.7", "1.6.0"]).find?
        (fun v => v == "1.5.7" || v == "1.5.0") = some "1.5.7"
    ∧ searchInstallRemote "OpenTofu" (.ok ["1.5.0", "1.5.7", "1.6.0"]) (Except.ok ()) []
        ⟨fun v => v == "1.5.7" || v == "1.5.0", true⟩ true
        = ⟨"1.5.7", some .noCompatibleLocally, [], 0, 1,
            ["Found compatible version remotely : 1.5.7",
              autoInstallDisabledMsg "OpenTofu" "1.5.7"]⟩ := by
  refine ⟨by decide, ?_⟩
  exact ((c4_search_install_remote "OpenTofu" (Except.ok ()) []
      ⟨fun v => v == "1.5.7" || v == "1.5.0", true⟩ ["1.5.0", "1.5.7", "1.6.0"]
      (GoErr.other "unused")).2.1 "1.5.7" (by decide)).1

/-- Claim C6: `Use` evaluates the request and writes the resolved
version to the first version file name (working dir) or to
`<root>/<folder>/version` (global); `ErrNoCompatibleLocally` from
`Evaluate` is reported but not fatal (the version is still written),
while any other `Evaluate` error is returned and nothing is written. -/
theorem c6_use (rootPath folder requested : String) (vfNames : List String)
    (noInstall forceRemote workingDir : Bool) (predParse : Except GoErr PredInfo)
    (remote : Except GoErr (List String)) (retr : Except GoErr Unit) (fs : List Entry) :
    ((Evaluate folder noInstall forceRemote predParse remote retr fs requested).err = none →
      Use rootPath folder vfNames noInstall forceRemote predParse remote retr fs
          requested workingDir
        = ⟨none,
            some ((if workingDir then vfNames.headD "" else rootVersionFilePath rootPath folder),
              (Evaluate folder noInstall forceRemote predParse remote retr fs requested).version),
            (Evaluate folder noInstall forceRemote predParse remote retr fs requested).fs,
            (Evaluate folder noInstall forceRemote predParse remote retr fs requested).displayed
              ++ ["Written "
                    ++ (Evaluate folder noInstall forceRemote predParse remote retr fs
                        requested).version
                    ++ " in "
                    ++ (if workingDir then vfNames.headD ""
                        else rootVersionFilePath rootPath folder)]⟩)
    ∧ ((Evaluate folder noInstall forceRemote predParse remote retr fs requested).err
          = some .noCompatibleLocally →
      Use rootPath folder vfNames noInstall forceRemote predParse remote retr fs
          requested workingDir
        = ⟨none,
            some ((if workingDir then vfNames.headD "" else rootVersionFilePath rootPath folder),
              (Evaluate folder noInstall forceRemote predParse remote retr fs requested).version),
            (Evaluate folder noInstall forceRemote predParse remote retr fs requested).fs,
            (Evaluate folder noInstall forceRemote predParse remote retr fs requested).displayed
              ++ ["no compatible version found locally"]
              ++ ["Written "
                    ++ (Evaluate folder noInstall forceRemote predParse remote retr fs
                        requested).version
                    ++ " in "
                    ++ (if workingDir then vfNames.headD ""
                        else rootVersionFilePath rootPath folder)]⟩)
    ∧ (∀ e, (Evaluate folder noInstall forceRemote predParse remote retr fs requested).err
          = some e →
        e ≠ .noCompatibleLocally →
        Use rootPath folder vfNames noInstall forceRemote predParse remote retr fs
            requested workingDir
          = ⟨some e, none,
              (Evaluate folder noInstall forceRemote predParse remote retr fs requested).fs,
              (Evaluate folder noInstall forceRemote predParse remote retr fs
                requested).displayed⟩) := by
  refine ⟨?_, ?_, ?_⟩
  · intro h
    simp [Use, h]
  · intro h
    simp [Use, h]
  · intro e h he
    simp [Use, h, he]

/-- Witness for C6: with auto-install disabled and the version absent,
`Use` still writes the version file at the global path. -/
theorem c6_witness :
    (Evaluate "OpenTofu" true false (Except.error (GoErr.other "p")) (.ok [])
        (Except.ok ()) [] "1.6.2").err = some .noCompatibleLocally
    ∧ Use "/root/.tenv" "OpenTofu" [".opentofu-version"] true false
        (Except.error (GoErr.other "p")) (.ok []) (Except.ok ()) [] "1.6.2" false
      = ⟨none, some (rootVersionFilePath "/root/.tenv" "OpenTofu", "1.6.2"), [],
          [autoInstallDisabledMsg "OpenTofu" "1.6.2"]
            ++ ["no compatible version found locally"]
            ++ ["Written " ++ "1.6.2" ++ " in " ++ rootVersionFilePath "/root/.tenv" "OpenTofu"]⟩ := by
  refine ⟨by decide, ?_⟩
  have h := (c6_use "/root/.tenv" "OpenTofu" "1.6.2" [".opentofu-version"] true false false
    (Except.error (GoErr.other "p")) (.ok []) (Except.ok ()) []).2.1 (by decide)
  simpa using h

/-- Claim C9: `innerListLocal` returns exactly the names of the direct
sub-directories (non-directory entries ignored): the ascending list is
a permutation of those names sorted by the semver comparator, and with
`reverse_order` it is exactly the reversal of the ascending list
(under the hypothesis that no two distinct entry names tie in the
comparator, which holds for canonical version directory names). -/
theorem c9_inner_list_local (fs : List Entry) :
    List.Perm (innerListLocal fs false)
      ((fs.filter (fun e => e.isDir)).map (fun e => e.name))
    ∧ (innerListLocal fs false).Pairwise (fun a b => cmpVersion a b ≤ 0)
    ∧ ((∀ a, a ∈ (fs.filter (fun e => e.isDir)).map (fun e => e.name) →
          ∀ b, b ∈ (fs.filter (fun e => e.isDir)).map (fun e => e.name) →
          cmpVersion a b = 0 → a = b) →
        innerListLocal fs true = (innerListLocal fs false).reverse) := by
  refine ⟨?_, ?_, ?_⟩
  · exact sortCmp_perm cmpVersion _
  · exact sortCmp_pairwise cmpVersion cmpVersion_total cmpVersion_trans _
  · intro hties
    exact sortCmp_flip_reverse cmpVersion cmpVersion_antisymm cmpVersion_trans _ hties

/-- Witness for C9: a directory with versions 1.6.0, 1.5.7, 1.10.2 and
one stray regular file. -/
theorem c9_witness :
    innerListLocal [⟨"1.6.0", true⟩, ⟨"oops", false⟩, ⟨"1.5.7", true⟩, ⟨"1.10.2", true⟩] true
      = (innerListLocal
          [⟨"1.6.0", true⟩, ⟨"oops", false⟩, ⟨"1.5.7", true⟩, ⟨"1.10.2", true⟩] false).reverse
    ∧ innerListLocal [⟨"1.6.0", true⟩, ⟨"oops", false⟩, ⟨"1.5.7", true⟩, ⟨"1.10.2", true⟩] false
      = ["1.5.7", "1.6.0", "1.10.2"] := by
  refine ⟨?_, by decide⟩
  exact (c9_inner_list_local
    [⟨"1.6.0", true⟩, ⟨"oops", false⟩, ⟨"1.5.7", true⟩, ⟨"1.10.2", true⟩]).2.2 (by decide)

theorem dropLeadingV_spec (s : String) :
    (∃ rest, s.data = 'v' :: rest ∧ (dropLeadingV s).data = rest)
    ∨ ((∀ rest, s.data ≠ 'v' :: rest) ∧ dropLeadingV s = s) := by
  unfold dropLeadingV
  split
  · next rest heq => exact Or.inl ⟨rest, heq, rfl⟩
  · next hne => exact Or.inr ⟨fun rest h => hne rest h, rfl⟩

/-- Counterexample for C2 as stated: on the release tag "vv1.0.0" the
catalog client emits the version string "v1.0.0", whose first
character is 'v'. -/
theorem c2_counterexample :
    LatestRelease (.ok ⟨200, some (JSON.obj [("tag_name", JSON.str "vv1.0.0")])⟩)
      = .ok "v1.0.0"
    ∧ ("v1.0.0" : String).data.head? = some 'v' := ⟨by decide, by decide⟩

/-- Claim C2 (amended): for every release object the client reads
`tag_name`, fails with `BadResponse` when it is empty or missing, and
otherwise emits the tag with a single leading 'v' dropped; hence an
emitted version string can begin with 'v' only when the tag began with
"vv" (the code strips one prefix, not all). -/
theorem c2_canonicalization (value : JSON) :
    ((value.getStr "tag_name").getD "" = "" →
      extractVersion value = none
      ∧ ∀ st : Nat, LatestRelease (.ok ⟨st, some value⟩) = .error .badResponse)
    ∧ (∀ t, value.getStr "tag_name" = some t → t ≠ "" →
      extractVersion value = some (dropLeadingV t)
      ∧ ∀ st : Nat, LatestRelease (.ok ⟨st, some value⟩) = .ok (dropLeadingV t))
    ∧ (∀ t s, value.getStr "tag_name" = some t → extractVersion value = some s →
      s.data.head? = some 'v' → ∃ rest, t.data = 'v' :: 'v' :: rest) := by
  refine ⟨?_, ?_, ?_⟩
  · intro h
    constructor
    · simp [extractVersion, h]
    · intro st
      simp [LatestRelease, apiGetRequest, extractVersion, h]
  · intro t h ht
    have hgd : (value.getStr "tag_name").getD "" = t := by rw [h]; rfl
    constructor
    · simp [extractVersion, hgd, ht]
    · intro st
      simp [LatestRelease, apiGetRequest, extractVersion, hgd, ht]
  · intro t s h hs hhead
    have hgd : (value.getStr "tag_name").getD "" = t := by rw [h]; rfl
    by_cases ht : t = ""
    · rw [ht] at hgd
      simp [extractVersion, hgd] at hs
    · have hs2 : dropLeadingV t = s := by
        simp [extractVersion, hgd, ht] at hs
        exact hs
      rcases dropLeadingV_spec t with ⟨rest, hrest, hdrop⟩ | ⟨hne, hid⟩
      · rw [hs2] at hdrop
        rw [hdrop] at hhead
        cases rest with
        | nil => cases hhead
        | cons r rs =>
          have hr : r = 'v' := by
            injection hhead
          exact ⟨rs, by rw [hrest, hr]⟩
      · rw [hid] at hs2
        subst hs2
        exfalso
        cases hdata : t.data with
        | nil => rw [hdata] at hhead; cases hhead
        | cons r rs =>
          rw [hdata] at hhead
          have hr : r = 'v' := by injection hhead
          exact hne rs (by rw [hdata, hr])

/-- Witness for C2 (amended): the tag "v1.2.3" is emitted as "1.2.3". -/
theorem c2_witness :
    (JSON.obj [("tag_name", JSON.str "v1.2.3")]).getStr "tag_name" = some "v1.2.3"
    ∧ extractVersion (JSON.obj [("tag_name", JSON.str "v1.2.3")]) = some "1.2.3"
    ∧ LatestRelease (.ok ⟨200, some (JSON.obj [("tag_name", JSON.str "v1.2.3")])⟩)
        = .ok "1.2.3" := by
  have h := (c2_canonicalization (JSON.obj [("tag_name", JSON.str "v1.2.3")])).2.1
    "v1.2.3" (by decide) (by decide)
  refine ⟨by decide, ?_, ?_⟩
  · exact h.1.trans (by decide)
  · exact (h.2 200).trans (by decide)

/-- Counterexample for C8 as stated: a 404 response whose body is a
well-shaped release object does not surface as an error — the
operation succeeds, because the client never inspects the status
code. -/
theorem c8_counterexample :
    LatestRelease (.ok ⟨404, some (JSON.obj [("tag_name", JSON.str "1.2.3")])⟩)
      = .ok "1.2.3" := by decide

/-- Claim C8 (amended): for every catalog request, transport errors
and JSON-decoding failures surface directly as errors of the
operation, with no retry; the HTTP status code is never inspected, so
each request's outcome is independent of it (a non-2xx response is
processed like any other and at worst fails later as a shape
violation). -/
theorem c8_failure_semantics :
    (∀ e : String, apiGetRequest (.error e) = .error (.transport e))
    ∧ (∀ st st2 : Nat, ∀ body : Option JSON,
        apiGetRequest (.ok ⟨st, body⟩) = apiGetRequest (.ok ⟨st2, body⟩))
    ∧ (∀ st : Nat, apiGetRequest (.ok ⟨st, none⟩) = .error .jsonError)
    ∧ (∀ e : String, LatestRelease (.error e) = .error (.transport e))
    ∧ (∀ e : String, ∀ pages, ListReleases (.error e :: pages) = .error (.transport e))
    ∧ (∀ e : String, ∀ acc pages,
        listReleasesLoop acc (.error e :: pages) = .error (.transport e))
    ∧ (∀ e : String, ∀ searched waited assets pages,
        downloadAssetLoop searched waited assets (.error e :: pages)
          = .error (.transport e))
    ∧ (∀ e : String, ∀ searched pages,
        DownloadAssetURL searched (.error e) pages = .error (.transport e)) := by
  refine ⟨fun e => rfl, fun st st2 body => ?_, fun st => rfl, fun e => rfl,
    fun e pages => rfl, fun e acc pages => rfl,
    fun e searched waited assets pages => rfl, fun e searched pages => rfl⟩
  cases body <;> rfl

theorem extractAssetsLoop_done_append {searched : List String} {waited : Nat} :
    ∀ (pre : List JSON) (assets : List (String × String)) (m : List (String × String)),
      extractAssetsLoop searched waited assets pre = .done m →
      ∀ post, extractAssetsLoop searched waited assets (pre ++ post) = .done m
  | [], assets, m, hm, post => by simp [extractAssetsLoop] at hm
  | value :: rest, assets, m, hm, post => by
    rw [List.cons_append]
    cases hn : value.getStr "name" with
    | none => simp [extractAssetsLoop, hn] at hm
    | some assetName =>
      simp only [extractAssetsLoop, hn] at hm ⊢
      by_cases hc : searched.contains assetName
      · rw [if_pos hc] at hm ⊢
        cases hu : value.getStr "browser_download_url" with
        | none => rw [hu] at hm; cases hm
        | some url =>
          rw [hu] at hm
          have hm2 : (if (insertAsset assets assetName url).length = waited
              then AssetScan.done (insertAsset assets assetName url)
              else extractAssetsLoop searched waited (insertAsset assets assetName url) rest)
              = AssetScan.done m := hm
          show (if (insertAsset assets assetName url).length = waited
              then AssetScan.done (insertAsset assets assetName url)
              else extractAssetsLoop searched waited (insertAsset assets assetName url)
                (rest ++ post))
              = AssetScan.done m
          by_cases hw : (insertAsset assets assetName url).length = waited
          · rw [if_pos hw] at hm2 ⊢
            exact hm2
          · rw [if_neg hw] at hm2 ⊢
            exact extractAssetsLoop_done_append rest _ m hm2 post
      · rw [if_neg hc] at hm ⊢
        exact extractAssetsLoop_done_append rest assets m hm post

/-- Claim C7: the asset search terminates successfully as soon as all
searched names have been found and recorded (page elements after
completion are never examined); an empty asset page before completion
fails with `AssetNotFound`; an asset object without a string `name`,
or a searched asset without `browser_download_url`, fails with
`BadResponse`; and a successful `DownloadAssetURL` over a
duplicate-free searched set has recorded a URL for every searched
name. -/
theorem c7_asset_search (searched : List String) (waited : Nat)
    (assets : List (String × String)) :
    (∀ pre post m, extractAssetsLoop searched waited assets pre = .done m →
        extractAssetsLoop searched waited assets (pre ++ post) = .done m)
    ∧ extractAssets searched waited assets (JSON.arr []) = .fail .assetNotFound
    ∧ (∀ value rest, (value : JSON).getStr "name" = none →
        extractAssetsLoop searched waited assets (value :: rest) = .fail .badResponse)
    ∧ (∀ value rest assetName, (value : JSON).getStr "name" = some assetName →
        searched.contains assetName = true →
        value.getStr "browser_download_url" = none →
        extractAssetsLoop searched waited assets (value :: rest) = .fail .badResponse)
    ∧ (∀ tagResponse pages m, searched.Nodup →
        DownloadAssetURL searched tagResponse pages = .ok (some m) →
        ∀ n ∈ searched, (m.lookup n).isSome) := by
  refine ⟨?_, rfl, ?_, ?_, ?_⟩
  · intro pre post m hm
    exact extractAssetsLoop_done_append pre assets m hm post
  · intro value rest hn
    simp [extractAssetsLoop, hn]
  · intro value rest assetName hn hc hu
    have hc2 : assetName ∈ searched := by simpa [List.contains] using hc
    simp [extractAssetsLoop, hn, hc2, hu]
  · intro tagResponse pages m hnd hok n hn
    unfold DownloadAssetURL at hok
    cases hresp : apiGetRequest tagResponse with
    | error e => rw [hresp] at hok; cases hok
    | ok value =>
      rw [hresp] at hok
      have hok1 : (match value.getStr "assets_url" with
          | none => (Except.error GoErr.badResponse : Except GoErr (Option (List (String × String))))
          | some _ => downloadAssetLoop searched searched.length [] pages)
          = Except.ok (some m) := hok
      cases hau : value.getStr "assets_url" with
      | none => rw [hau] at hok1; cases hok1
      | some u =>
        rw [hau] at hok1
        have hok2 : downloadAssetLoop searched searched.length [] pages
            = .ok (some m) := hok1
        have h3 := downloadAssetLoop_complete pages [] (by simp) (by simp) m hok2
        exact done_complete_of_nodup hnd h3.1 h3.2.1 h3.2.2 n hn

/-- Witness for C7: one searched asset found on the first page; the
suffix after completion is never read; the recorded map answers every
searched name. -/
theorem c7_witness :
    extractAssetsLoop ["a.zip"] 1 []
        [JSON.obj [("name", JSON.str "a.zip"), ("browser_download_url", JSON.str "ua")]]
      = .done [("a.zip", "ua")]
    ∧ extractAssetsLoop ["a.zip"] 1 []
        ([JSON.obj [("name", JSON.str "a.zip"), ("browser_download_url", JSON.str "ua")]]
          ++ [JSON.null])
      = .done [("a.zip", "ua")]
    ∧ (∀ n ∈ ["a.zip"],
        (([("a.zip", "ua")] : List (String × String)).lookup n).isSome) := by
  refine ⟨by decide, ?_, ?_⟩
  · exact (c7_asset_search ["a.zip"] 1 []).1
      [JSON.obj [("name", JSON.str "a.zip"), ("browser_download_url", JSON.str "ua")]]
      [JSON.null] [("a.zip", "ua")] (by decide)
  · exact (c7_asset_search ["a.zip"] 1 []).2.2.2.2
      (.ok ⟨200, some (JSON.obj [("assets_url", JSON.str "u")])⟩)
      [.ok ⟨200, some (JSON.arr
        [JSON.obj [("name", JSON.str "a.zip"), ("browser_download_url", JSON.str "ua")]])⟩]
      [("a.zip", "ua")] (by decide) (by decide)
